import Mathlib

/-!
Shallow embedding of `src/modules/layers.py` (KGTL): five relational GNN
layers (REGCN, WGCN, GCN, CompGCN, RGCN) and their shared grouped
scatter-aggregation.  Tensors of floats are modelled as lists of exact
rationals (row-major: a matrix is a list of row vectors); node and relation
IDs are naturals; fallible Python code (raising) is modelled with
`Except`/`Option`.  Each definition is translated from the corresponding
source function; comments cite the source lines.
-/

/-- A row vector of scalars (one float tensor row, exact-arithmetic model). -/
abbrev Vec := List ℚ

/-- A matrix, as a list of row vectors. -/
abbrev Mat := List Vec

/-- Dot product of two rows (truncating at the shorter, as `torch` would reject
unequal shapes; all uses are shape-consistent). -/
def dot (a b : Vec) : ℚ := (List.zipWith (· * ·) a b).sum

/-- `W @ x` for a weight matrix stored as (out_dim, in_dim) rows, as in
`torch.nn.Linear`. -/
def matVec (w : Mat) (x : Vec) : Vec := w.map (fun r => dot r x)

/-- `x @ W` for a weight matrix stored as (in_dim, out_dim) rows, as used by
`RGCNLayer` (`torch.bmm` of a row vector with `weight[r]`): the linear
combination `Σ_i x_i · W[i]` of the rows of `W`. -/
def vecMat (x : Vec) (w : Mat) : Vec :=
  (List.zipWith (fun c r => r.map (fun q => c * q)) x w).foldl
    (fun a b => List.zipWith (· + ·) a b) (List.replicate ((w.headD []).length) 0)

/-- Elementwise sum of two rows (`a + b`). -/
def vadd (a b : Vec) : Vec := List.zipWith (· + ·) a b

/-- Elementwise difference (`a - b`). -/
def vsub (a b : Vec) : Vec := List.zipWith (· - ·) a b

/-- Elementwise (Hadamard) product (`a * b`). -/
def vmul (a b : Vec) : Vec := List.zipWith (· * ·) a b

/-- Scalar times row (`c * v`, broadcast). -/
def smul (c : ℚ) (v : Vec) : Vec := v.map (fun q => c * q)

/-- The zero row of width `d` (`torch.zeros`). -/
def zeroVec (d : ℕ) : Vec := List.replicate d 0

/-- `torch.nn.Linear`: weight of shape (out_dim, in_dim) and optional bias. -/
structure Linear where
  weight : Mat
  bias : Option Vec
deriving DecidableEq, Repr

/-- Application of a `nn.Linear` to one row. -/
def Linear.apply (l : Linear) (x : Vec) : Vec :=
  match l.bias with
  | none => matVec l.weight x
  | some b => vadd (matVec l.weight x) b

/-- One `(source node, relation, destination node)` triplet of the edge list. -/
structure Edge where
  src : ℕ
  rel : ℕ
  dst : ℕ
deriving DecidableEq, Repr

/-- Sorted insertion without duplication; helper for the model of
`torch.unique`. -/
def insertUS (x : ℕ) : List ℕ → List ℕ
  | [] => [x]
  | y :: ys => if x < y then x :: y :: ys else if x = y then y :: ys else y :: insertUS x ys

/-- Model of `torch.unique(des)`: the sorted list of distinct values of `des`. -/
def uniqueSorted (l : List ℕ) : List ℕ := l.foldr insertUS []

/-- Position of `d` in a list `u` (first occurrence).  For `u` the sorted
unique destinations this is the slot that `torch.unique(·, return_inverse)`
assigns to `d`, and also the value the layers' auxiliary `index_matrix`
(a `csr_matrix` in REGCN/WGCN) stores at row `d`. -/
def posIn (u : List ℕ) (d : ℕ) : ℕ :=
  match u with
  | [] => 0
  | x :: xs => if x = d then 0 else posIn xs d + 1

/-- One step of `Tensor.scatter_add_` along dim 0 with a row-constant index:
add row `p.2` into accumulator row `p.1`. -/
def scatterStep (acc : List Vec) (p : ℕ × Vec) : List Vec :=
  acc.set p.1 (vadd (acc.getD p.1 []) p.2)

/-- `torch.zeros(k, d).scatter_add_(0, idx, msgs)` where row `i` of the index
tensor is constant `idx[i]`: accumulate message rows into the rows named by
`idx`.  (`scatter_(…, reduce='add')` in REGCN/WGCN behaves identically.) -/
def scatterAddRows (k d : ℕ) (idx : List ℕ) (msgs : List Vec) : List Vec :=
  (idx.zip msgs).foldl scatterStep (List.replicate k (zeroVec d))

/-- `h[des_index] = h[des_index] + message` for a list `di` of **distinct**
row indices (torch advanced-indexing assignment; the layers only use it with
the output of `torch.unique`, which is duplicate-free). -/
def indexAddRows (h : List Vec) (di : List ℕ) (msgs : List Vec) : List Vec :=
  (di.zip msgs).foldl scatterStep h

/-- `index_matrix = zeros(num_node); index_matrix[des] = arange(des.shape[0])`
read back at `d`: the position of the **last** occurrence of `d` in `des`
(left-to-right writes, last write wins), `0` when `d` never occurs. -/
def lastPos (des : List ℕ) (d : ℕ) : ℕ :=
  des.enum.foldl (fun acc p => if p.2 = d then p.1 else acc) 0

/-- `message[index_matrix[des]]` in `CompGCNLayer.forward` / `RGCNLayer.forward`
(source lines 180, 191, 232): replace the message of each edge by the message
of the last edge with the same destination. -/
def reorderByLastPos (des : List ℕ) (msgs : List Vec) : List Vec :=
  des.map (fun d => msgs.getD (lastPos des d) [])

/-- Hand-computed per-destination grouped **sum**: fold of the messages whose
destination is `d`, in input order (the comparison value of the spec's
"hand-computed sums/means per destination"). -/
def sumForDest (d0 : ℕ) (des : List ℕ) (msgs : List Vec) (d : ℕ) : Vec :=
  ((des.zip msgs).filter (fun p => p.1 = d)).foldl (fun v p => vadd v p.2) (zeroVec d0)

/-- Hand-computed per-destination **mean**: the grouped sum divided by the
number of messages for that destination. -/
def meanForDest (d0 : ℕ) (des : List ℕ) (msgs : List Vec) (d : ℕ) : Vec :=
  (sumForDest d0 des msgs d).map (fun q => q / ((des.count d : ℚ)))

/-! ## REGCNLayer (source lines 9–58) -/

/-- The activation selected by `REGCNLayer.__init__` (source lines 23–28). -/
inductive ActiveKind where
  | rrelu
  | sigmoid
  | tanh
deriving DecidableEq, Repr

/-- Engine-provided transcendental activations (`nn.Sigmoid`, `nn.Tanh`),
abstracted as elementwise scalar functions: their float values are opaque to
this development. -/
structure ActiveEnv where
  sig : ℚ → ℚ
  tanh : ℚ → ℚ

/-- `nn.RReLU` applied to one scalar with the realized random negative slope
`a` (training mode samples `a` uniformly from `[1/8, 1/3]` per element;
`RReLU(x) = x` for `x ≥ 0`, `a * x` otherwise). -/
def rreluQ (a x : ℚ) : ℚ := if x < 0 then a * x else x

/-- One row of the elementwise activation: `rrelu` consumes the realized
slopes for that row, `sigmoid`/`tanh` are the engine functions. -/
def applyActiveRow (env : ActiveEnv) (k : ActiveKind) (srow hrow : Vec) : Vec :=
  match k with
  | .rrelu => List.zipWith rreluQ srow hrow
  | .sigmoid => hrow.map env.sig
  | .tanh => hrow.map env.tanh

/-- `self.active(h)` on the whole matrix; for `rrelu` the matrix `slopes`
holds the per-element slopes realized by this call. -/
def applyActive (env : ActiveEnv) (k : ActiveKind) (slopes h : Mat) : Mat :=
  match k with
  | .rrelu => List.zipWith (fun srow hrow => List.zipWith rreluQ srow hrow) slopes h
  | .sigmoid => h.map (fun row => row.map env.sig)
  | .tanh => h.map (fun row => row.map env.tanh)

/-- State of `REGCNLayer` after `__init__` (source lines 10–28).  `active` is
`none` exactly when the `if/elif` chain recognized no activation name and the
attribute was never set (`dtype` is irrelevant in exact arithmetic). -/
structure REGCNLayer where
  input_dim : ℕ
  output_dim : ℕ
  fc_self : Linear
  fc_aggregate : Linear
  active : Option ActiveKind
deriving DecidableEq, Repr

/-- `REGCNLayer.__init__` (source lines 10–28): store the two linear maps and
dispatch on the activation name; an unrecognized name sets no attribute. -/
def mkREGCNLayer (input_dim output_dim : ℕ) (fc_self fc_aggregate : Linear)
    (active : String) : REGCNLayer :=
  ⟨input_dim, output_dim, fc_self, fc_aggregate,
    if active = "rrelu" then some ActiveKind.rrelu
    else if active = "sigmoid" then some ActiveKind.sigmoid
    else if active = "tanh" then some ActiveKind.tanh
    else none⟩

/-- `REGCNLayer.calculate_message` (source lines 30–31). -/
def REGCNLayer.calculate_message (l : REGCNLayer) (src rela : Vec) : Vec :=
  l.fc_aggregate.apply (vadd src rela)

/-- `REGCNLayer.aggregate` (source lines 33–41): `torch.unique` with counts,
the `csr_matrix` index map from destination ID to unique-slot, a
`scatter_(0, …, reduce='add')` into a fresh zero buffer, then rowwise division
by the counts (mean). -/
def REGCNLayer.aggregate (l : REGCNLayer) (message : List Vec) (num_node : ℕ)
    (des : List ℕ) : List ℕ × List Vec :=
  let u := uniqueSorted des
  let count : List ℚ := u.map (fun d => (des.count d : ℚ))
  let idx := des.map (fun d => posIn u d)
  let summed := scatterAddRows u.length l.output_dim idx message
  (u, List.zipWith (fun row c => row.map (fun q => q / c)) summed count)

/-- `REGCNLayer.forward` (source lines 43–58).  `slopes` is the per-element
noise realized by `nn.RReLU` for this call (ignored by sigmoid/tanh); a layer
whose `active` attribute was never set raises `AttributeError` at the final
`self.active(h)`. -/
def REGCNLayer.forward (env : ActiveEnv) (l : REGCNLayer) (slopes : Mat)
    (nodes_embed edges_embed : Mat) (edges : List Edge) : Except String Mat :=
  match l.active with
  | none => Except.error "AttributeError: REGCNLayer object has no attribute active"
  | some k =>
    let h := nodes_embed.map l.fc_self.apply
    let message := edges.map (fun e =>
      l.calculate_message (nodes_embed.getD e.src []) (edges_embed.getD e.rel []))
    let dm := l.aggregate message nodes_embed.length (edges.map (fun e => e.dst))
    let h2 := indexAddRows h dm.1 dm.2
    Except.ok (applyActive env k slopes h2)

/-! ## WGCNLayer (source lines 61–100) -/

/-- The activation selected by `WGCNLayer.__init__` (source lines 70–75):
anything other than `sigmoid`/`tanh` silently falls back to `nn.ReLU`. -/
inductive WActive where
  | relu
  | sigmoid
  | tanh
deriving DecidableEq, Repr

/-- State of `WGCNLayer` after `__init__` (source lines 62–75):
one learnable scalar per relation, one shared linear map. -/
structure WGCNLayer where
  num_relation : ℕ
  input_dim : ℕ
  output_dim : ℕ
  relation_weight : List ℚ
  fc : Linear
  active : WActive
deriving DecidableEq, Repr

/-- `WGCNLayer.__init__` (source lines 62–75). -/
def mkWGCNLayer (num_relation input_dim output_dim : ℕ) (relation_weight : List ℚ)
    (fc : Linear) (active : String) : WGCNLayer :=
  ⟨num_relation, input_dim, output_dim, relation_weight, fc,
    if active = "sigmoid" then WActive.sigmoid
    else if active = "tanh" then WActive.tanh
    else WActive.relu⟩

/-- `WGCNLayer.calculate_message` (source lines 77–78): `fc(src * w_r)`. -/
def WGCNLayer.calculate_message (l : WGCNLayer) (src : Vec) (w : ℚ) : Vec :=
  l.fc.apply (smul w src)

/-- `WGCNLayer.aggregate` (source lines 80–88): like REGCN's but **sum**
reduction (no division by counts). -/
def WGCNLayer.aggregate (l : WGCNLayer) (message : List Vec) (num_node : ℕ)
    (des : List ℕ) : List ℕ × List Vec :=
  let u := uniqueSorted des
  let idx := des.map (fun d => posIn u d)
  (u, scatterAddRows u.length l.output_dim idx message)

/-- `WGCNLayer.forward` (source lines 90–100).  Line 98 calls
`self.aggregate(message, nodes_embed.shape[0], edges.shape[0], edges[:, 2])`
— four positional arguments for the three-parameter `aggregate` — so every
call raises `TypeError` after computing `h` and `message` (lines 96–97). -/
def WGCNLayer.forward (l : WGCNLayer) (nodes_embed : Mat) (edges : List Edge) :
    Except String Mat :=
  let _h := nodes_embed.map l.fc.apply
  let _message := edges.map (fun e =>
    l.calculate_message (nodes_embed.getD e.src []) (l.relation_weight.getD e.rel 0))
  Except.error "TypeError: aggregate() takes 4 positional arguments but 5 were given"

/-! ## GCNLayer (source lines 103–130)

IEEE-style float values are modelled as exact rationals extended with the
two infinities and NaN, so that the `deg.pow(-0.5)` division-by-zero and the
`deg_inv_sqrt[torch.isinf(…)] = 0` replacement are observable. -/

/-- A float value: finite (exact rational), `±inf`, or NaN. -/
inductive Fp where
  | num (q : ℚ)
  | posInf
  | negInf
  | nan
deriving DecidableEq, Repr

/-- Finiteness of a float value (negation of `torch.isinf ∨ torch.isnan`). -/
def Fp.isFinite : Fp → Bool
  | .num _ => true
  | _ => false

/-- IEEE multiplication on the extended values. -/
def Fp.mul : Fp → Fp → Fp
  | .nan, _ => .nan
  | _, .nan => .nan
  | .num a, .num b => .num (a * b)
  | .num a, .posInf => if 0 < a then .posInf else if a < 0 then .negInf else .nan
  | .num a, .negInf => if 0 < a then .negInf else if a < 0 then .posInf else .nan
  | .posInf, .num b => if 0 < b then .posInf else if b < 0 then .negInf else .nan
  | .negInf, .num b => if 0 < b then .negInf else if b < 0 then .posInf else .nan
  | .posInf, .posInf => .posInf
  | .posInf, .negInf => .negInf
  | .negInf, .posInf => .negInf
  | .negInf, .negInf => .posInf

/-- IEEE addition on the extended values. -/
def Fp.add : Fp → Fp → Fp
  | .nan, _ => .nan
  | _, .nan => .nan
  | .num a, .num b => .num (a + b)
  | .num _, .posInf => .posInf
  | .posInf, .num _ => .posInf
  | .num _, .negInf => .negInf
  | .negInf, .num _ => .negInf
  | .posInf, .posInf => .posInf
  | .negInf, .negInf => .negInf
  | .posInf, .negInf => .nan
  | .negInf, .posInf => .nan

/-- `deg.pow(-0.5)` (source line 117): `0 ** -0.5` is `+inf`; for a positive
degree the engine returns the finite float `pnh deg` (the numeric value of
`deg ** -0.5` is opaque to this development, only its finiteness matters). -/
def powNegHalfFp (pnh : ℕ → ℚ) (deg : ℕ) : Fp :=
  if deg = 0 then Fp.posInf else Fp.num (pnh deg)

/-- `deg_inv_sqrt[torch.isinf(deg_inv_sqrt)] = 0` (source line 118). -/
def replaceInf : Fp → Fp
  | .posInf => .num 0
  | .negInf => .num 0
  | x => x

/-- `GCNLayer` state: one linear map (`torch.nn.Linear(in, out)`, bias on by
default; source line 106). -/
structure GCNLayer where
  lin : Linear

/-- `add_self_loops(edges, num_nodes=n)` (source line 115): append one
`(i, i)` edge per node to the source and destination rows of `edge_index`. -/
def addSelfLoops (src dst : List ℕ) (n : ℕ) : List ℕ × List ℕ :=
  (src ++ List.range n, dst ++ List.range n)

/-- `degree(edges[0], n)` (source line 116): occurrence count of `v` in the
source row. -/
def degreeOf (src : List ℕ) (v : ℕ) : ℕ := src.count v

/-- `deg_inv_sqrt` after the `isinf` replacement, evaluated at node `v`
(source lines 116–118), over the self-loop-augmented edge list. -/
def GCNLayer.degInvSqrt (pnh : ℕ → ℚ) (src : List ℕ) (n : ℕ) (v : ℕ) : Fp :=
  replaceInf (powNegHalfFp pnh (degreeOf (src ++ List.range n) v))

/-- `norm = deg_inv_sqrt[edges[0]] * deg_inv_sqrt[edges[1]]` (source line 120):
the per-edge normalization coefficients over the augmented edge list. -/
def GCNLayer.norm (pnh : ℕ → ℚ) (src dst : List ℕ) (n : ℕ) : List Fp :=
  let s := src ++ List.range n
  let t := dst ++ List.range n
  (s.zip t).map (fun p => Fp.mul (GCNLayer.degInvSqrt pnh src n p.1)
                                 (GCNLayer.degInvSqrt pnh src n p.2))

/-- `message(x_j, norm) = norm.view(-1, 1) * x_j` (source lines 124–126):
per edge, the source row scaled by the edge's coefficient. -/
def GCNLayer.messages (pnh : ℕ → ℚ) (x : Mat) (src dst : List ℕ) (n : ℕ) :
    List (List Fp) :=
  ((GCNLayer.norm pnh src dst n).zip (src ++ List.range n)).map
    (fun p => (x.getD p.2 []).map (fun q => Fp.mul p.1 (Fp.num q)))

/-- Elementwise float addition of two rows. -/
def vaddFp (a b : List Fp) : List Fp := List.zipWith Fp.add a b

/-- The `propagate(…, aggr='add')` result at destination node `v` (source
lines 105, 122): sum of the messages of the augmented edges whose destination
is `v`, width `d0`. -/
def GCNLayer.aggregated (pnh : ℕ → ℚ) (x : Mat) (src dst : List ℕ) (n : ℕ)
    (v : ℕ) (d0 : ℕ) : List Fp :=
  (((dst ++ List.range n).zip (GCNLayer.messages pnh x src dst n)).filter
      (fun p => p.1 = v)).foldl
    (fun a p => vaddFp a p.2) (List.replicate d0 (Fp.num 0))

/-- Float dot product of a (finite) weight row with a float row. -/
def dotFp (w : Vec) (xs : List Fp) : Fp :=
  (List.zipWith (fun c q => Fp.mul (Fp.num c) q) w xs).foldl Fp.add (Fp.num 0)

/-- `update(aggr_out) = self.lin(aggr_out)` (source lines 128–130): the output
row of `GCNLayer.forward` at node `v`. -/
def GCNLayer.output (l : GCNLayer) (pnh : ℕ → ℚ) (x : Mat) (src dst : List ℕ)
    (n : ℕ) (v : ℕ) (d0 : ℕ) : List Fp :=
  let agg := GCNLayer.aggregated pnh x src dst n v d0
  match l.lin.bias with
  | none => l.lin.weight.map (fun row => dotFp row agg)
  | some b => List.zipWith (fun fp c => Fp.add fp (Fp.num c))
      (l.lin.weight.map (fun row => dotFp row agg)) b

/-! ## CompGCNLayer (source lines 133–197) -/

/-- State of `CompGCNLayer` after `__init__` (source lines 134–142): four
bias-free linear maps. -/
structure CompGCNLayer where
  output_dim : ℕ
  num_rela : ℕ
  W_o : Mat
  W_i : Mat
  W_s : Mat
  W_r : Mat
deriving DecidableEq, Repr

/-- `CompGCNLayer.composition` (source lines 144–153): elementwise combination
dispatched on the mode string; the `else` branch returns `None`. -/
def CompGCNLayer.composition (node_embed rela_embed : Vec) (mode : String) :
    Option Vec :=
  if mode = "add" then some (vadd node_embed rela_embed)
  else if mode = "sub" then some (vsub node_embed rela_embed)
  else if mode = "mult" then some (vmul node_embed rela_embed)
  else none

/-- `CompGCNLayer.aggregate` (source lines 155–159): `torch.unique` with
`return_inverse`, then `scatter_add_` into a fresh zero buffer (sum). -/
def CompGCNLayer.aggregate (message : List Vec) (des : List ℕ) :
    List ℕ × List Vec :=
  let u := uniqueSorted des
  let idx := des.map (fun d => posIn u d)
  (u, scatterAddRows u.length ((message.headD []).length) idx message)

/-- `index = edges[:, 1] < self.num_rela; edges[index]` (source lines 173–176):
the "original edges" subset. -/
def forwardEdges (edges : List Edge) (r : ℕ) : List Edge :=
  edges.filter (fun e => e.rel < r)

/-- `index = edges[:, 1] >= self.num_rela; edges[index]` (source lines
185–188): the "reversed edges" subset. -/
def reverseEdges (edges : List Edge) (r : ℕ) : List Edge :=
  edges.filter (fun e => ¬ e.rel < r)

/-- Map a fallible function over a list, failing as soon as it fails
(the propagation of a `None` composition into the callers). -/
def optionMapList (f : α → Option β) : List α → Option (List β)
  | [] => some []
  | a :: as =>
    match f a, optionMapList f as with
    | some b, some bs => some (b :: bs)
    | _, _ => none

/-- Per-edge messages `W(composition(node_embed[src], rela_embed[rela]))` for
one directional weight `w` (source lines 179, 190). -/
def CompGCNLayer.edgeMessages (w : Mat) (node_embed rela_embed : Mat)
    (mode : String) (es : List Edge) : Option (List Vec) :=
  optionMapList (fun e =>
    (CompGCNLayer.composition (node_embed.getD e.src []) (rela_embed.getD e.rel [])
        mode).map (fun c => matVec w c)) es

/-- `CompGCNLayer.forward` (source lines 161–197): self-loop term through
`W_i` with the appended self-loop relation `rela_embed[2 * num_rela]`, the
two directional blocks (forward subset through `W_o`, reversed subset through
`W_s`, each with the `index_matrix` reorder, sum aggregation, and
`h_v[des_index] += message`), and the relation update `h_r = W_r(rela_embed)`.
An unrecognized mode makes `composition` return `None`, which the subsequent
tensor ops reject (modelled as `none`). -/
def CompGCNLayer.forward (l : CompGCNLayer) (node_embed rela_embed : Mat)
    (edges : List Edge) (mode : String) : Option (Mat × Mat) :=
  match optionMapList (fun row =>
      CompGCNLayer.composition row (rela_embed.getD (l.num_rela * 2) []) mode)
      node_embed with
  | none => none
  | some c0 =>
    let hv0 := c0.map (fun c => matVec l.W_i c)
    let fe := forwardEdges edges l.num_rela
    match CompGCNLayer.edgeMessages l.W_o node_embed rela_embed mode fe with
    | none => none
    | some mo =>
      let mo2 := reorderByLastPos (fe.map (fun e => e.dst)) mo
      let dmo := CompGCNLayer.aggregate mo2 (fe.map (fun e => e.dst))
      let hv1 := indexAddRows hv0 dmo.1 dmo.2
      let re := reverseEdges edges l.num_rela
      match CompGCNLayer.edgeMessages l.W_s node_embed rela_embed mode re with
      | none => none
      | some ms =>
        let ms2 := reorderByLastPos (re.map (fun e => e.dst)) ms
        let dms := CompGCNLayer.aggregate ms2 (re.map (fun e => e.dst))
        let hv2 := indexAddRows hv1 dms.1 dms.2
        some (hv2, rela_embed.map (fun rrow => matVec l.W_r rrow))

/-! ## RGCNLayer (source lines 200–239) -/

/-- State of `RGCNLayer` after `__init__` (source lines 201–208): one full
weight matrix per relation (stored (input_dim, output_dim)) and a self-loop
weight matrix (field name `self_loop_weigt` as in the source). -/
structure RGCNLayer where
  input_dim : ℕ
  output_dim : ℕ
  num_rels : ℕ
  weight : List Mat
  self_loop_weigt : Mat
deriving DecidableEq, Repr

/-- `RGCNLayer.aggregate` (source lines 210–214): `torch.unique` with
`return_inverse` and counts, `scatter_add_`, then rowwise division by the
counts (mean). -/
def RGCNLayer.aggregate (message : List Vec) (des : List ℕ) :
    List ℕ × List Vec :=
  let u := uniqueSorted des
  let idx := des.map (fun d => posIn u d)
  let summed := scatterAddRows u.length ((message.headD []).length) idx message
  (u, List.zipWith (fun row c => row.map (fun q => q / c)) summed
        (u.map (fun d => (des.count d : ℚ))))

/-- `RGCNLayer.forward` (source lines 216–239): per-edge message
`h[src] @ weight[rel]` (`torch.bmm`), the `index_matrix` reorder of line 232,
mean aggregation, self-loop `h @ self_loop_weigt`, and
`out[dst_index] += msg`.  No activation. -/
def RGCNLayer.forward (l : RGCNLayer) (h : Mat) (edges : List Edge) : Mat :=
  let dst := edges.map (fun e => e.dst)
  let msg0 := edges.map (fun e => vecMat (h.getD e.src []) (l.weight.getD e.rel []))
  let msg := reorderByLastPos dst msg0
  let dm := RGCNLayer.aggregate msg dst
  let out := h.map (fun row => vecMat row l.self_loop_weigt)
  indexAddRows out dm.1 dm.2

/-! ## Helper lemmas -/

lemma getD_map_of_lt {α β : Type} (f : α → β) (l : List α) (k : ℕ) (da : α) (db : β)
    (h : k < l.length) : (l.map f).getD k db = f (l.getD k da) := by
  rw [List.getD_eq_getElem _ _ (by simpa using h), List.getD_eq_getElem _ _ h,
    List.getElem_map]

lemma getD_zipWith_of_lt {α β γ : Type} (f : α → β → γ) (l1 : List α) (l2 : List β)
    (k : ℕ) (da : α) (db : β) (dc : γ) (h1 : k < l1.length) (h2 : k < l2.length) :
    (List.zipWith f l1 l2).getD k dc = f (l1.getD k da) (l2.getD k db) := by
  have hz : k < (List.zipWith f l1 l2).length := by
    rw [List.length_zipWith]; omega
  rw [List.getD_eq_getElem _ _ hz, List.getD_eq_getElem _ _ h1,
    List.getD_eq_getElem _ _ h2, List.getElem_zipWith]

lemma getD_replicate_of_lt {α : Type} {n k : ℕ} (a d : α) (h : k < n) :
    (List.replicate n a).getD k d = a := by
  rw [List.getD_eq_getElem _ _ (by simpa using h), List.getElem_replicate]

lemma getD_set_ne' {α : Type} (l : List α) (i j : ℕ) (a d : α) (h : i ≠ j) :
    (l.set i a).getD j d = l.getD j d := by
  simp [List.getD_eq_getElem?_getD, List.getElem?_set_ne h]

lemma getD_set_self_of_lt {α : Type} (l : List α) (i : ℕ) (a d : α) (h : i < l.length) :
    (l.set i a).getD i d = a := by
  rw [List.getD_eq_getElem _ _ (by simpa using h), List.getElem_set_self]

lemma foldl_scatterStep_length (ps : List (ℕ × Vec)) (acc : List Vec) :
    (ps.foldl scatterStep acc).length = acc.length := by
  induction ps generalizing acc with
  | nil => rfl
  | cons p ps ih => rw [List.foldl_cons, ih]; simp [scatterStep]

/-- Rows not named by any index pair are untouched by scatter/index-add. -/
lemma foldl_scatterStep_getD_of_ne (ps : List (ℕ × Vec)) (acc : List Vec) (k : ℕ)
    (h : ∀ p ∈ ps, p.1 ≠ k) :
    (ps.foldl scatterStep acc).getD k [] = acc.getD k [] := by
  induction ps generalizing acc with
  | nil => rfl
  | cons p ps ih =>
    rw [List.foldl_cons, ih _ (fun q hq => h q (List.mem_cons_of_mem _ hq))]
    exact getD_set_ne' _ _ _ _ _ (h p (List.mem_cons_self _ _))

/-- Row `k` of a scatter/index-add fold: the left fold of `vadd` over exactly
the pairs whose index is `k`, starting from the initial row. -/
lemma foldl_scatterStep_getD (ps : List (ℕ × Vec)) (acc : List Vec) (k : ℕ)
    (hk : k < acc.length) :
    (ps.foldl scatterStep acc).getD k []
      = ((ps.filter (fun p => p.1 = k)).foldl (fun v p => vadd v p.2) (acc.getD k [])) := by
  induction ps generalizing acc with
  | nil => rfl
  | cons p ps ih =>
    rw [List.foldl_cons]
    have hlen : k < (scatterStep acc p).length := by simpa [scatterStep] using hk
    by_cases hpk : p.1 = k
    · have h1 : (scatterStep acc p).getD k [] = vadd (acc.getD k []) p.2 := by
        subst hpk; exact getD_set_self_of_lt _ _ _ _ hk
      rw [ih _ hlen, h1]
      simp [List.filter_cons, hpk]
    · have h1 : (scatterStep acc p).getD k [] = acc.getD k [] :=
        getD_set_ne' _ _ _ _ _ hpk
      rw [ih _ hlen, h1]
      simp [List.filter_cons, hpk]

lemma mem_insertUS {a x : ℕ} {l : List ℕ} : a ∈ insertUS x l ↔ a = x ∨ a ∈ l := by
  induction l with
  | nil => simp [insertUS]
  | cons y ys ih =>
    by_cases h1 : x < y
    · simp only [insertUS, if_pos h1, List.mem_cons]
    · by_cases h2 : x = y
      · subst h2
        have hx : insertUS x (x :: ys) = x :: ys := by simp [insertUS, h1]
        rw [hx, List.mem_cons]
        tauto
      · simp only [insertUS, if_neg h1, if_neg h2, List.mem_cons, ih]
        tauto

lemma pairwise_insertUS {x : ℕ} {l : List ℕ} (h : l.Pairwise (· < ·)) :
    (insertUS x l).Pairwise (· < ·) := by
  induction l with
  | nil => simp [insertUS]
  | cons y ys ih =>
    rcases List.pairwise_cons.mp h with ⟨hy, hys⟩
    by_cases h1 : x < y
    · simp only [insertUS, if_pos h1]
      exact List.pairwise_cons.mpr ⟨fun b hb => by
        rcases List.mem_cons.mp hb with rfl | hb
        · exact h1
        · exact lt_trans h1 (hy b hb), h⟩
    · by_cases h2 : x = y
      · simpa [insertUS, if_neg h1, h2] using h
      · simp only [insertUS, if_neg h1, if_neg h2]
        refine List.pairwise_cons.mpr ⟨fun b hb => ?_, ih hys⟩
        rcases mem_insertUS.mp hb with rfl | hb
        · omega
        · exact hy b hb

lemma mem_uniqueSorted {a : ℕ} {l : List ℕ} : a ∈ uniqueSorted l ↔ a ∈ l := by
  induction l with
  | nil => simp [uniqueSorted]
  | cons x xs ih =>
    rw [show uniqueSorted (x :: xs) = insertUS x (uniqueSorted xs) from rfl,
      mem_insertUS, ih, List.mem_cons]

lemma pairwise_uniqueSorted (l : List ℕ) : (uniqueSorted l).Pairwise (· < ·) := by
  induction l with
  | nil => simp [uniqueSorted]
  | cons x xs ih => exact pairwise_insertUS ih

lemma nodup_uniqueSorted (l : List ℕ) : (uniqueSorted l).Nodup :=
  (pairwise_uniqueSorted l).imp (fun h => Nat.ne_of_lt h)

lemma posIn_lt {u : List ℕ} {d : ℕ} (h : d ∈ u) : posIn u d < u.length := by
  induction u with
  | nil => cases h
  | cons x xs ih =>
    by_cases hx : x = d
    · simp [posIn, hx]
    · have hd : d ∈ xs := by
        rcases List.mem_cons.mp h with rfl | h'
        · exact absurd rfl hx
        · exact h'
      simpa [posIn, hx] using Nat.succ_lt_succ (ih hd)

lemma getD_posIn {u : List ℕ} {d : ℕ} (h : d ∈ u) : u.getD (posIn u d) 0 = d := by
  induction u with
  | nil => cases h
  | cons x xs ih =>
    by_cases hx : x = d
    · simp [posIn, hx]
    · have hd : d ∈ xs := by
        rcases List.mem_cons.mp h with rfl | h'
        · exact absurd rfl hx
        · exact h'
      simpa [posIn, hx] using ih hd

lemma nodup_getD_inj {u : List ℕ} (hnd : u.Nodup) {i j : ℕ} (hi : i < u.length)
    (hj : j < u.length) (h : u.getD i 0 = u.getD j 0) : i = j := by
  rw [List.getD_eq_getElem _ _ hi, List.getD_eq_getElem _ _ hj] at h
  exact (hnd.getElem_inj_iff).mp h

lemma posIn_eq_iff {u : List ℕ} (hnd : u.Nodup) {d k : ℕ} (hd : d ∈ u)
    (hk : k < u.length) : posIn u d = k ↔ u.getD k 0 = d := by
  constructor
  · rintro rfl; exact getD_posIn hd
  · intro h
    exact nodup_getD_inj hnd (posIn_lt hd) hk (by rw [getD_posIn hd, h])

lemma optionMapList_eq_some {α β : Type} (f : α → Option β) (g : α → β)
    (hfg : ∀ a, f a = some (g a)) (l : List α) :
    optionMapList f l = some (l.map g) := by
  induction l with
  | nil => rfl
  | cons a as ih => simp [optionMapList, hfg a, ih]

/-- The recognized composition modes of `CompGCNLayer.composition`. -/
def recognizedMode (mode : String) : Bool :=
  mode == "add" || mode == "sub" || mode == "mult"

/-- The value `composition` returns on a recognized mode. -/
def compVal (a b : Vec) (mode : String) : Vec :=
  if mode = "add" then vadd a b else if mode = "sub" then vsub a b else vmul a b

lemma composition_recognized {mode : String} (h : recognizedMode mode = true)
    (a b : Vec) : CompGCNLayer.composition a b mode = some (compVal a b mode) := by
  have h' : (mode = "add" ∨ mode = "sub") ∨ mode = "mult" := by
    simpa [recognizedMode, Bool.or_eq_true, beq_iff_eq] using h
  rcases h' with (rfl | rfl) | rfl <;> rfl

/-! ## Claim theorems -/

/-- C2: the claim says `WGCNLayer.forward` returns `activation(h)` with the
per-destination sums added, completing without raising; in the source it
always raises a `TypeError`, because line 98 passes four positional arguments
to the three-parameter `WGCNLayer.aggregate` (code bug: evaluation at a
concrete failing input). -/
theorem C2_wgcn_forward_always_raises :
    WGCNLayer.forward (mkWGCNLayer 1 1 1 [1] ⟨[[1]], none⟩ "relu") [[1], [2]]
        [⟨0, 0, 1⟩]
      = Except.error
          "TypeError: aggregate() takes 4 positional arguments but 5 were given" :=
  rfl

/-- C5 counterexample: the claim names the mode string `'multiply'`, but
`CompGCNLayer.composition` only recognizes `'mult'`: with `'multiply'` it
falls into the `else` branch and returns `None`, not the elementwise
product. -/
theorem C5_mode_multiply_returns_none :
    CompGCNLayer.composition [(2 : ℚ)] [3] "multiply" = none
    ∧ CompGCNLayer.composition [(2 : ℚ)] [3] "multiply" ≠ some (vmul [2] [3]) := by
  refine ⟨rfl, fun h => ?_⟩
  rw [show CompGCNLayer.composition [(2 : ℚ)] [3] "multiply" = none from rfl] at h
  exact Option.noConfusion h

/-- C5 amended: for all vectors `a`, `b` of equal length, mode `'add'` returns
the elementwise sum and mode `'mult'` (the recognized token, not
`'multiply'`) returns the elementwise product. -/
theorem C5_composition_add_mult_elementwise (a b : Vec) (hab : a.length = b.length) :
    (CompGCNLayer.composition a b "add" = some (vadd a b)
      ∧ ∀ i, i < a.length → (vadd a b).getD i 0 = a.getD i 0 + b.getD i 0)
    ∧ (CompGCNLayer.composition a b "mult" = some (vmul a b)
      ∧ ∀ i, i < a.length → (vmul a b).getD i 0 = a.getD i 0 * b.getD i 0) := by
  refine ⟨⟨rfl, fun i hi => ?_⟩, ⟨rfl, fun i hi => ?_⟩⟩
  · exact getD_zipWith_of_lt (· + ·) a b i 0 0 0 hi (hab ▸ hi)
  · exact getD_zipWith_of_lt (· * ·) a b i 0 0 0 hi (hab ▸ hi)

/-- C5 witness: the amended theorem at concrete vectors. -/
theorem C5_composition_witness :
    ([(1 : ℚ), 2] : Vec).length = ([(3 : ℚ), 5] : Vec).length
    ∧ ((CompGCNLayer.composition [(1 : ℚ), 2] [3, 5] "add" = some (vadd [1, 2] [3, 5])
        ∧ ∀ i, i < ([(1 : ℚ), 2] : Vec).length →
            (vadd [(1 : ℚ), 2] [3, 5]).getD i 0
              = ([(1 : ℚ), 2] : Vec).getD i 0 + ([(3 : ℚ), 5] : Vec).getD i 0)
      ∧ (CompGCNLayer.composition [(1 : ℚ), 2] [3, 5] "mult" = some (vmul [1, 2] [3, 5])
        ∧ ∀ i, i < ([(1 : ℚ), 2] : Vec).length →
            (vmul [(1 : ℚ), 2] [3, 5]).getD i 0
              = ([(1 : ℚ), 2] : Vec).getD i 0 * ([(3 : ℚ), 5] : Vec).getD i 0)) :=
  ⟨rfl, C5_composition_add_mult_elementwise [1, 2] [3, 5] rfl⟩

/-- C6: the claim demands a loud configuration error for unknown composition
modes and activation names; in the source `composition` silently returns
`None`, `REGCNLayer.__init__` silently leaves the activation attribute unset
(failing only later in `forward`), and `WGCNLayer.__init__` silently
substitutes the default `nn.ReLU` (code bug: evaluation at the failing
configurations). -/
theorem C6_silent_config_failures :
    CompGCNLayer.composition [(1 : ℚ)] [2] "foo" = none
    ∧ (mkREGCNLayer 1 1 ⟨[[1]], none⟩ ⟨[[1]], none⟩ "foo").active = none
    ∧ REGCNLayer.forward ⟨fun q => q, fun q => q⟩
        (mkREGCNLayer 1 1 ⟨[[1]], none⟩ ⟨[[1]], none⟩ "foo") [[0]] [[1]] [[1]] []
      = Except.error "AttributeError: REGCNLayer object has no attribute active"
    ∧ (mkWGCNLayer 1 1 1 [1] ⟨[[1]], none⟩ "foo").active = WActive.relu :=
  ⟨rfl, rfl, rfl, rfl⟩

/-- C10: constructing `REGCNLayer` with an unrecognized activation name
succeeds (the record is built, no error is reported) but sets no activation,
and every subsequent `forward` call on that instance fails with the
`AttributeError` raised at `self.active(h)`. -/
theorem C10_regcn_unknown_activation (name : String) (h1 : name ≠ "rrelu")
    (h2 : name ≠ "sigmoid") (h3 : name ≠ "tanh") (din dout : ℕ) (fs fa : Linear) :
    mkREGCNLayer din dout fs fa name = ⟨din, dout, fs, fa, none⟩
    ∧ (mkREGCNLayer din dout fs fa name).active = none
    ∧ ∀ env slopes nodes_embed edges_embed edges,
        REGCNLayer.forward env (mkREGCNLayer din dout fs fa name) slopes
            nodes_embed edges_embed edges
          = Except.error "AttributeError: REGCNLayer object has no attribute active" := by
  have hmk : mkREGCNLayer din dout fs fa name = ⟨din, dout, fs, fa, none⟩ := by
    simp [mkREGCNLayer, h1, h2, h3]
  exact ⟨hmk, by rw [hmk], fun env slopes nodes_embed edges_embed edges => by
    rw [hmk]; rfl⟩

/-- C10 witness: the theorem at the concrete unrecognized name `"foo"`. -/
theorem C10_regcn_unknown_activation_witness :
    ("foo" : String) ≠ "rrelu"
    ∧ (mkREGCNLayer 1 1 ⟨[[1]], none⟩ ⟨[[1]], none⟩ "foo" = ⟨1, 1, ⟨[[1]], none⟩, ⟨[[1]], none⟩, none⟩
      ∧ (mkREGCNLayer 1 1 ⟨[[1]], none⟩ ⟨[[1]], none⟩ "foo").active = none
      ∧ ∀ env slopes nodes_embed edges_embed edges,
          REGCNLayer.forward env (mkREGCNLayer 1 1 ⟨[[1]], none⟩ ⟨[[1]], none⟩ "foo")
              slopes nodes_embed edges_embed edges
            = Except.error "AttributeError: REGCNLayer object has no attribute active") :=
  ⟨by decide,
    C10_regcn_unknown_activation "foo" (by decide) (by decide) (by decide) 1 1
      ⟨[[1]], none⟩ ⟨[[1]], none⟩⟩

/-- C9 amended (determinism given the realized noise): every layer variant's
forward pass — REGCN, RGCN, CompGCN, WGCN, and the normalized GCN — is a
function of its inputs, parameters and — for REGCN's `nn.RReLU` in training
mode — the realized random slopes: calls with equal inputs and equal realized
noise give equal outputs. -/
theorem C9_forward_deterministic_given_noise
    (env : ActiveEnv) (l1 : REGCNLayer) (s1 s2 n1 n2 e1 e2 : Mat) (ed1 ed2 : List Edge)
    (hs : s1 = s2) (hn : n1 = n2) (he : e1 = e2) (hed : ed1 = ed2)
    (l2 : RGCNLayer) (g1 g2 : Mat) (f1 f2 : List Edge) (hg : g1 = g2) (hf : f1 = f2)
    (l3 : CompGCNLayer) (a1 a2 b1 b2 : Mat) (c1 c2 : List Edge) (m1 m2 : String)
    (ha : a1 = a2) (hb : b1 = b2) (hc : c1 = c2) (hm : m1 = m2)
    (l4 : WGCNLayer) (w1 w2 : Mat) (x1 x2 : List Edge) (hw : w1 = w2) (hx : x1 = x2)
    (l5 : GCNLayer) (pnh : ℕ → ℚ) (y1 y2 : Mat) (u1 u2 t1 t2 : List ℕ)
    (p1 p2 v1 v2 o1 o2 : ℕ)
    (hy : y1 = y2) (hu : u1 = u2) (ht : t1 = t2) (hp : p1 = p2) (hv : v1 = v2)
    (ho : o1 = o2) :
    REGCNLayer.forward env l1 s1 n1 e1 ed1 = REGCNLayer.forward env l1 s2 n2 e2 ed2
    ∧ RGCNLayer.forward l2 g1 f1 = RGCNLayer.forward l2 g2 f2
    ∧ CompGCNLayer.forward l3 a1 b1 c1 m1 = CompGCNLayer.forward l3 a2 b2 c2 m2
    ∧ WGCNLayer.forward l4 w1 x1 = WGCNLayer.forward l4 w2 x2
    ∧ GCNLayer.output l5 pnh y1 u1 t1 p1 v1 o1
        = GCNLayer.output l5 pnh y2 u2 t2 p2 v2 o2 := by
  subst_vars
  exact ⟨rfl, rfl, rfl, rfl, rfl⟩

/-- C9 witness: the amended theorem at concrete inputs. -/
theorem C9_forward_deterministic_witness :
    REGCNLayer.forward ⟨fun q => q, fun q => q⟩
        (mkREGCNLayer 1 1 ⟨[[1]], none⟩ ⟨[[1]], none⟩ "tanh") [[0]] [[1]] [[1]] []
      = REGCNLayer.forward ⟨fun q => q, fun q => q⟩
        (mkREGCNLayer 1 1 ⟨[[1]], none⟩ ⟨[[1]], none⟩ "tanh") [[0]] [[1]] [[1]] []
    ∧ RGCNLayer.forward ⟨1, 1, 1, [[[1]]], [[1]]⟩ [[1]] []
      = RGCNLayer.forward ⟨1, 1, 1, [[[1]]], [[1]]⟩ [[1]] []
    ∧ CompGCNLayer.forward ⟨1, 1, [[1]], [[1]], [[1]], [[1]]⟩ [[1]] [[0], [0], [0]] [] "add"
      = CompGCNLayer.forward ⟨1, 1, [[1]], [[1]], [[1]], [[1]]⟩ [[1]] [[0], [0], [0]] [] "add"
    ∧ WGCNLayer.forward (mkWGCNLayer 1 1 1 [1] ⟨[[1]], none⟩ "relu") [[1]] []
      = WGCNLayer.forward (mkWGCNLayer 1 1 1 [1] ⟨[[1]], none⟩ "relu") [[1]] []
    ∧ GCNLayer.output ⟨⟨[[1]], some [1]⟩⟩ (fun _ => 1) [[1], [2]] [0] [1] 2 0 1
        = GCNLayer.output ⟨⟨[[1]], some [1]⟩⟩ (fun _ => 1) [[1], [2]] [0] [1] 2 0 1 :=
  C9_forward_deterministic_given_noise
    ⟨fun q => q, fun q => q⟩ (mkREGCNLayer 1 1 ⟨[[1]], none⟩ ⟨[[1]], none⟩ "tanh")
    [[0]] [[0]] [[1]] [[1]] [[1]] [[1]] [] [] rfl rfl rfl rfl
    ⟨1, 1, 1, [[[1]]], [[1]]⟩ [[1]] [[1]] [] [] rfl rfl
    ⟨1, 1, [[1]], [[1]], [[1]], [[1]]⟩ [[1]] [[1]] [[0], [0], [0]] [[0], [0], [0]]
    [] [] "add" "add" rfl rfl rfl rfl
    (mkWGCNLayer 1 1 1 [1] ⟨[[1]], none⟩ "relu") [[1]] [[1]] [] [] rfl rfl
    ⟨⟨[[1]], some [1]⟩⟩ (fun _ => 1) [[1], [2]] [[1], [2]] [0] [0] [1] [1]
    2 2 0 0 1 1 rfl rfl rfl rfl rfl rfl

/-- C9 counterexample: with the default `rrelu` activation in training mode,
two `forward` calls on the same `REGCNLayer` instance with identical inputs
and parameters can return different outputs — the realized `nn.RReLU` slopes
(both inside the sampling interval `[1/8, 1/3]`) differ between the calls. -/
theorem C9_rrelu_training_nondeterminism :
    ((1 : ℚ)/8 ≤ 1/8 ∧ (1 : ℚ)/8 ≤ 1/3) ∧ ((1 : ℚ)/8 ≤ 1/4 ∧ (1 : ℚ)/4 ≤ 1/3)
    ∧ REGCNLayer.forward ⟨fun q => q, fun q => q⟩
        (mkREGCNLayer 1 1 ⟨[[1]], none⟩ ⟨[[1]], none⟩ "rrelu") [[1/8]] [[-1]] [[1]] []
      ≠ REGCNLayer.forward ⟨fun q => q, fun q => q⟩
        (mkREGCNLayer 1 1 ⟨[[1]], none⟩ ⟨[[1]], none⟩ "rrelu") [[1/4]] [[-1]] [[1]] [] := by
  refine ⟨⟨by norm_num, by norm_num⟩, ⟨by norm_num, by norm_num⟩, ?_⟩
  norm_num [REGCNLayer.forward, mkREGCNLayer, REGCNLayer.calculate_message,
    REGCNLayer.aggregate, applyActive, rreluQ, Linear.apply, matVec, dot, vadd,
    uniqueSorted, insertUS, posIn, scatterAddRows, scatterStep, indexAddRows,
    zeroVec, smul]

/-- C1: the claim says the per-destination aggregated contribution equals the
hand-computed sum (CompGCN) / mean (RGCN) of the edge messages, including
when several edges share a destination; in the source, the
`index_matrix[des] = arange(…)`-then-`message[index_matrix[des]]` reorder of
`CompGCNLayer.forward`/`RGCNLayer.forward` replaces every message by the
message of the *last* edge with the same destination, so with the two edges
`(0,0,2)` and `(1,0,2)` RGCN's node 2 receives the last message `2` instead
of the mean `3/2`, and CompGCN's node 2 receives `4` (twice the last message)
instead of the sum `3` (code bug: evaluation at the failing input). -/
theorem C1_reorder_breaks_duplicate_destinations :
    RGCNLayer.forward ⟨1, 1, 1, [[[1]]], [[0]]⟩ [[1], [2], [3]]
        [⟨0, 0, 2⟩, ⟨1, 0, 2⟩]
      = [[0], [0], [2]]
    ∧ meanForDest 1 [2, 2] [[1], [2]] 2 = [3/2]
    ∧ ¬ ([(2 : ℚ)] = [3/2])
    ∧ CompGCNLayer.forward ⟨1, 1, [[1]], [[0]], [[1]], [[1]]⟩ [[1], [2], [3]]
        [[0], [0], [0]] [⟨0, 0, 2⟩, ⟨1, 0, 2⟩] "add"
      = some ([[0], [0], [4]], [[0], [0], [0]])
    ∧ sumForDest 1 [2, 2] [[1], [2]] 2 = [3]
    ∧ ¬ ([(4 : ℚ)] = [3]) := by
  refine ⟨?_, ?_, by norm_num, ?_, ?_, by norm_num⟩
  · norm_num [RGCNLayer.forward, RGCNLayer.aggregate, reorderByLastPos, lastPos,
      List.enum, List.enumFrom, uniqueSorted, insertUS, posIn, scatterAddRows,
      scatterStep, indexAddRows, vecMat, vadd, zeroVec]
  · norm_num [meanForDest, sumForDest, List.filter, vadd, zeroVec]
  · norm_num [CompGCNLayer.forward, CompGCNLayer.composition, CompGCNLayer.aggregate,
      CompGCNLayer.edgeMessages, optionMapList, forwardEdges, reverseEdges,
      reorderByLastPos, lastPos, List.enum, List.enumFrom, uniqueSorted, insertUS,
      posIn, scatterAddRows, scatterStep, indexAddRows, matVec, dot, vadd, vmul,
      vsub, zeroVec, List.filter]
  · norm_num [sumForDest, List.filter, vadd, zeroVec]

/-- `CompGCNLayer.forward` reads its edge argument only through the two
filtered subsets. -/
lemma compgcn_forward_congr_edges (l : CompGCNLayer) (node_embed rela_embed : Mat)
    (mode : String) (edges1 edges2 : List Edge)
    (h1 : forwardEdges edges1 l.num_rela = forwardEdges edges2 l.num_rela)
    (h2 : reverseEdges edges1 l.num_rela = reverseEdges edges2 l.num_rela) :
    CompGCNLayer.forward l node_embed rela_embed edges1 mode
      = CompGCNLayer.forward l node_embed rela_embed edges2 mode := by
  simp only [CompGCNLayer.forward, h1, h2]

lemma forwardEdges_append (l1 l2 : List Edge) (r : ℕ) :
    forwardEdges (l1 ++ l2) r = forwardEdges l1 r ++ forwardEdges l2 r :=
  List.filter_append _ _

lemma reverseEdges_append (l1 l2 : List Edge) (r : ℕ) :
    reverseEdges (l1 ++ l2) r = reverseEdges l1 r ++ reverseEdges l2 r :=
  List.filter_append _ _

lemma forwardEdges_idem (edges : List Edge) (r : ℕ) :
    forwardEdges (forwardEdges edges r) r = forwardEdges edges r := by
  simp only [forwardEdges, List.filter_filter]
  simp

lemma reverseEdges_idem (edges : List Edge) (r : ℕ) :
    reverseEdges (reverseEdges edges r) r = reverseEdges edges r := by
  simp only [reverseEdges, List.filter_filter]
  simp

lemma forwardEdges_of_reverse (edges : List Edge) (r : ℕ) :
    forwardEdges (reverseEdges edges r) r = [] := by
  simp only [forwardEdges, reverseEdges, List.filter_filter]
  simp [decide_not]

lemma reverseEdges_of_forward (edges : List Edge) (r : ℕ) :
    reverseEdges (forwardEdges edges r) r = [] := by
  simp only [forwardEdges, reverseEdges, List.filter_filter]
  simp [decide_not]

/-- C4: in `CompGCNLayer.forward`, the `W_o` block processes exactly the
edges with `relation_id < num_relations` (the `forwardEdges` subset) and the
`W_s` block exactly those with `relation_id ≥ num_relations` (the
`reverseEdges` subset); each edge occurrence lands in exactly one subset
(their multiplicities sum to the edge list's), and `forward` is unchanged by
replacing the edge list by the two subsets laid side by side. -/
theorem C4_compgcn_directional_partition (edges : List Edge) :
    (∀ r : ℕ, ∀ e : Edge, e ∈ forwardEdges edges r ↔ e ∈ edges ∧ e.rel < r)
    ∧ (∀ r : ℕ, ∀ e : Edge, e ∈ reverseEdges edges r ↔ e ∈ edges ∧ r ≤ e.rel)
    ∧ (∀ r : ℕ, ∀ e : Edge,
        (forwardEdges edges r).count e + (reverseEdges edges r).count e
          = edges.count e)
    ∧ ∀ (l : CompGCNLayer) (node_embed rela_embed : Mat) (mode : String),
        CompGCNLayer.forward l node_embed rela_embed
            (forwardEdges edges l.num_rela ++ reverseEdges edges l.num_rela) mode
          = CompGCNLayer.forward l node_embed rela_embed edges mode := by
  refine ⟨?_, ?_, ?_, ?_⟩
  · intro r e
    simp [forwardEdges, List.mem_filter]
  · intro r e
    simp [reverseEdges, List.mem_filter]
  · intro r e
    have hperm : List.Perm (forwardEdges edges r ++ reverseEdges edges r) edges := by
      have h := List.filter_append_perm (fun e => decide (e.rel < r)) edges
      simpa [forwardEdges, reverseEdges, ← decide_not] using h
    calc (forwardEdges edges r).count e + (reverseEdges edges r).count e
        = (forwardEdges edges r ++ reverseEdges edges r).count e :=
          (List.count_append _ _ _).symm
      _ = edges.count e := hperm.count_eq e
  · intro l node_embed rela_embed mode
    refine compgcn_forward_congr_edges l node_embed rela_embed mode _ _ ?_ ?_
    · rw [forwardEdges_append, forwardEdges_idem, forwardEdges_of_reverse,
        List.append_nil]
    · rw [reverseEdges_append, reverseEdges_idem, reverseEdges_of_forward,
        List.nil_append]

/-- Pushing a map over the keys through the filtered fold of a zip. -/
lemma zip_map_left_filter_foldl (f : ℕ → ℕ) (des : List ℕ) (msgs : List Vec)
    (k : ℕ) (init : Vec) :
    (((des.map f).zip msgs).filter (fun p => p.1 = k)).foldl
        (fun v p => vadd v p.2) init
      = ((des.zip msgs).filter (fun p => f p.1 = k)).foldl
          (fun v p => vadd v p.2) init := by
  induction des generalizing msgs init with
  | nil => rfl
  | cons d ds ih =>
    cases msgs with
    | nil => rfl
    | cons m ms =>
      simp only [List.map_cons, List.zip_cons_cons, List.filter_cons]
      by_cases hk : f d = k
      · simpa [hk] using ih ms (vadd init m)
      · simpa [hk] using ih ms init

/-- On the pairs of the zip, testing the unique-slot of the key against `k`
is testing the key against the `k`-th unique destination. -/
lemma filter_zip_posIn_eq (des : List ℕ) (msgs : List Vec) (k : ℕ)
    (hk : k < (uniqueSorted des).length) :
    ((des.zip msgs).filter (fun p => posIn (uniqueSorted des) p.1 = k))
      = ((des.zip msgs).filter (fun p => p.1 = (uniqueSorted des).getD k 0)) := by
  apply List.filter_congr
  intro p hp
  have hmem : p.1 ∈ des := (List.of_mem_zip hp).1
  have hu : p.1 ∈ uniqueSorted des := mem_uniqueSorted.mpr hmem
  have hiff := posIn_eq_iff (nodup_uniqueSorted des) hu hk
  simp only [decide_eq_decide]
  exact hiff.trans eq_comm

/-- Scatter-accumulated rows keep the common message width. -/
lemma foldl_scatterStep_widths (ps : List (ℕ × Vec)) (acc : List Vec) (d0 : ℕ)
    (hacc : ∀ r ∈ acc, r.length = d0) (hps : ∀ p ∈ ps, p.2.length = d0)
    (hidx : ∀ p ∈ ps, p.1 < acc.length) :
    ∀ r ∈ ps.foldl scatterStep acc, r.length = d0 := by
  induction ps generalizing acc with
  | nil => exact hacc
  | cons p ps ih =>
    rw [List.foldl_cons]
    apply ih
    · intro r hr
      rcases List.mem_or_eq_of_mem_set hr with hr' | rfl
      · exact hacc r hr'
      · have hp1 : p.1 < acc.length := hidx p (List.mem_cons_self _ _)
        have h1 : (acc.getD p.1 []).length = d0 := by
          rw [List.getD_eq_getElem _ _ hp1]
          exact hacc _ (List.getElem_mem _)
        have h2 : p.2.length = d0 := hps p (List.mem_cons_self _ _)
        rw [show vadd (acc.getD p.1 []) p.2
              = List.zipWith (· + ·) (acc.getD p.1 []) p.2 from rfl,
          List.length_zipWith, h1, h2, Nat.min_self]
    · intro q hq
      exact hps q (List.mem_cons_of_mem _ hq)
    · intro q hq
      have hlt := hidx q (List.mem_cons_of_mem _ hq)
      simpa [scatterStep] using hlt

/-- C3: `REGCNLayer.aggregate` returns the sorted duplicate-free list of the
destination IDs present in the batch together with one row per unique
destination, of the layer's output width, equal to the arithmetic mean of the
messages mapped to that destination. -/
theorem C3_regcn_aggregate_sorted_mean (l : REGCNLayer) (message : List Vec)
    (num_node : ℕ) (des : List ℕ) (hne : des ≠ [])
    (hlen : message.length = des.length)
    (hw : ∀ m ∈ message, m.length = l.output_dim)
    (hrange : ∀ d ∈ des, d < num_node) :
    (l.aggregate message num_node des).1 = uniqueSorted des
    ∧ List.Sorted (· < ·) (l.aggregate message num_node des).1
    ∧ (l.aggregate message num_node des).1.Nodup
    ∧ (∀ d : ℕ, d ∈ (l.aggregate message num_node des).1 ↔ d ∈ des)
    ∧ (l.aggregate message num_node des).2.length
        = (l.aggregate message num_node des).1.length
    ∧ (∀ k, k < (l.aggregate message num_node des).1.length →
        ((l.aggregate message num_node des).2.getD k []).length = l.output_dim
        ∧ (l.aggregate message num_node des).2.getD k []
            = meanForDest l.output_dim des message
                ((l.aggregate message num_node des).1.getD k 0)) := by
  set u := uniqueSorted des with hu
  set cnt : List ℚ := u.map (fun d => (des.count d : ℚ)) with hcnt
  set idx : List ℕ := des.map (fun d => posIn u d) with hidx
  set summed := scatterAddRows u.length l.output_dim idx message with hsummed
  have h1 : (l.aggregate message num_node des).1 = u := rfl
  have h2 : (l.aggregate message num_node des).2
      = List.zipWith (fun row c => row.map (fun q => q / c)) summed cnt := rfl
  have hsl : summed.length = u.length := by
    rw [hsummed, scatterAddRows, foldl_scatterStep_length, List.length_replicate]
  have hcl : cnt.length = u.length := by rw [hcnt, List.length_map]
  have hidxb : ∀ p ∈ idx.zip message, p.1 < u.length := by
    intro p hp
    have hm := (List.of_mem_zip hp).1
    rw [hidx] at hm
    rcases List.mem_map.mp hm with ⟨d, hd, hpd⟩
    rw [← hpd]
    exact posIn_lt (mem_uniqueSorted.mpr hd)
  have hsw : ∀ r ∈ summed, r.length = l.output_dim := by
    rw [hsummed, scatterAddRows]
    apply foldl_scatterStep_widths
    · intro r hr
      rw [List.eq_of_mem_replicate hr, zeroVec, List.length_replicate]
    · intro p hp
      exact hw p.2 (List.of_mem_zip hp).2
    · intro p hp
      rw [List.length_replicate]
      exact hidxb p hp
  have hrow : ∀ k, k < u.length →
      (l.aggregate message num_node des).2.getD k []
        = (summed.getD k []).map (fun q => q / (des.count (u.getD k 0) : ℚ)) := by
    intro k hk
    rw [h2, getD_zipWith_of_lt _ summed cnt k [] 0 [] (by omega) (by omega)]
    rw [hcnt, getD_map_of_lt _ u k 0 0 hk]
  have hsum : ∀ k, k < u.length →
      summed.getD k [] = sumForDest l.output_dim des message (u.getD k 0) := by
    intro k hk
    rw [hsummed, scatterAddRows,
      foldl_scatterStep_getD _ _ k (by rw [List.length_replicate]; exact hk),
      getD_replicate_of_lt _ _ hk, hidx,
      zip_map_left_filter_foldl (fun d => posIn u d) des message k
        (zeroVec l.output_dim),
      filter_zip_posIn_eq des message k hk]
    rfl
  refine ⟨h1, ?_, ?_, ?_, ?_, ?_⟩
  · rw [h1]
    exact pairwise_uniqueSorted des
  · rw [h1]
    exact nodup_uniqueSorted des
  · intro d
    rw [h1]
    exact mem_uniqueSorted
  · rw [h2, h1, List.length_zipWith, hsl, hcl, Nat.min_self]
  · intro k hk'
    have hk : k < u.length := by rwa [h1] at hk'
    constructor
    · rw [hrow k hk, List.length_map, List.getD_eq_getElem _ _ (by omega : k < summed.length)]
      exact hsw _ (List.getElem_mem _)
    · rw [hrow k hk, hsum k hk, h1]
      rfl

/-- C3 witness: the theorem at a concrete batch with a repeated destination:
messages `[2], [4], [6]` to destinations `[3, 1, 3]` aggregate to
`([1, 3], [[4], [4]])`. -/
theorem C3_regcn_aggregate_witness :
    (([3, 1, 3] : List ℕ) ≠ [])
    ∧ ([[(2 : ℚ)], [4], [6]] : List Vec).length = ([3, 1, 3] : List ℕ).length
    ∧ ((REGCNLayer.aggregate ⟨1, 1, ⟨[[1]], none⟩, ⟨[[1]], none⟩, some .rrelu⟩
          [[2], [4], [6]] 4 [3, 1, 3]).1 = uniqueSorted [3, 1, 3]
      ∧ List.Sorted (· < ·)
          (REGCNLayer.aggregate ⟨1, 1, ⟨[[1]], none⟩, ⟨[[1]], none⟩, some .rrelu⟩
            [[2], [4], [6]] 4 [3, 1, 3]).1
      ∧ (REGCNLayer.aggregate ⟨1, 1, ⟨[[1]], none⟩, ⟨[[1]], none⟩, some .rrelu⟩
          [[2], [4], [6]] 4 [3, 1, 3]).1.Nodup
      ∧ (∀ d : ℕ, d ∈ (REGCNLayer.aggregate ⟨1, 1, ⟨[[1]], none⟩, ⟨[[1]], none⟩, some .rrelu⟩
            [[2], [4], [6]] 4 [3, 1, 3]).1 ↔ d ∈ [3, 1, 3])
      ∧ (REGCNLayer.aggregate ⟨1, 1, ⟨[[1]], none⟩, ⟨[[1]], none⟩, some .rrelu⟩
          [[2], [4], [6]] 4 [3, 1, 3]).2.length
          = (REGCNLayer.aggregate ⟨1, 1, ⟨[[1]], none⟩, ⟨[[1]], none⟩, some .rrelu⟩
              [[2], [4], [6]] 4 [3, 1, 3]).1.length
      ∧ (∀ k, k < (REGCNLayer.aggregate ⟨1, 1, ⟨[[1]], none⟩, ⟨[[1]], none⟩, some .rrelu⟩
            [[2], [4], [6]] 4 [3, 1, 3]).1.length →
          ((REGCNLayer.aggregate ⟨1, 1, ⟨[[1]], none⟩, ⟨[[1]], none⟩, some .rrelu⟩
              [[2], [4], [6]] 4 [3, 1, 3]).2.getD k []).length = 1
          ∧ (REGCNLayer.aggregate ⟨1, 1, ⟨[[1]], none⟩, ⟨[[1]], none⟩, some .rrelu⟩
              [[2], [4], [6]] 4 [3, 1, 3]).2.getD k []
              = meanForDest 1 [3, 1, 3] [[2], [4], [6]]
                  ((REGCNLayer.aggregate ⟨1, 1, ⟨[[1]], none⟩, ⟨[[1]], none⟩, some .rrelu⟩
                      [[2], [4], [6]] 4 [3, 1, 3]).1.getD k 0))) :=
  ⟨by simp, by simp,
    C3_regcn_aggregate_sorted_mean ⟨1, 1, ⟨[[1]], none⟩, ⟨[[1]], none⟩, some .rrelu⟩
      [[2], [4], [6]] 4 [3, 1, 3] (by simp) (by simp)
      (by intro m hm; fin_cases hm <;> rfl)
      (by intro d hd; fin_cases hd <;> omega)⟩

lemma indexAddRows_getD_of_not_mem (h : List Vec) (di : List ℕ) (msgs : List Vec)
    (d : ℕ) (hd : d ∉ di) :
    (indexAddRows h di msgs).getD d [] = h.getD d [] := by
  apply foldl_scatterStep_getD_of_ne
  intro p hp hpd
  exact hd (hpd ▸ (List.of_mem_zip hp).1)

lemma indexAddRows_length (h : List Vec) (di : List ℕ) (msgs : List Vec) :
    (indexAddRows h di msgs).length = h.length :=
  foldl_scatterStep_length _ _

lemma getD_applyActive (env : ActiveEnv) (k : ActiveKind) (slopes h : Mat) (d : ℕ)
    (hd : d < h.length) (hsl : slopes.length = h.length) :
    (applyActive env k slopes h).getD d []
      = applyActiveRow env k (slopes.getD d []) (h.getD d []) := by
  cases k
  · exact getD_zipWith_of_lt _ slopes h d [] [] [] (by omega) hd
  · rw [show applyActive env .sigmoid slopes h = h.map (fun row => row.map env.sig)
        from rfl, getD_map_of_lt _ h d [] [] hd]
    rfl
  · rw [show applyActive env .tanh slopes h = h.map (fun row => row.map env.tanh)
        from rfl, getD_map_of_lt _ h d [] [] hd]
    rfl

/-- An isolated node in `REGCNLayer.forward`: its output row is exactly the
activation of its self-loop transform. -/
lemma regcn_forward_isolated (env : ActiveEnv) (l : REGCNLayer) (k : ActiveKind)
    (slopes nodes_embed edges_embed : Mat) (edges : List Edge) (d : ℕ)
    (hact : l.active = some k) (hsl : slopes.length = nodes_embed.length)
    (hd : d < nodes_embed.length) (hiso : ∀ e ∈ edges, e.dst ≠ d) :
    ∃ out, REGCNLayer.forward env l slopes nodes_embed edges_embed edges
        = Except.ok out
      ∧ out.getD d [] = applyActiveRow env k (slopes.getD d [])
          (l.fc_self.apply (nodes_embed.getD d [])) := by
  simp only [REGCNLayer.forward, hact]
  refine ⟨_, rfl, ?_⟩
  have hdm : d ∉ (l.aggregate (edges.map fun e =>
      l.calculate_message (nodes_embed.getD e.src []) (edges_embed.getD e.rel []))
      nodes_embed.length (edges.map fun e => e.dst)).1 := by
    intro hmem
    have hmem2 : d ∈ edges.map (fun e => e.dst) := mem_uniqueSorted.mp hmem
    rcases List.mem_map.mp hmem2 with ⟨e, he, hde⟩
    exact hiso e he hde
  have hlen2 : (indexAddRows (nodes_embed.map l.fc_self.apply)
      (l.aggregate (edges.map fun e =>
        l.calculate_message (nodes_embed.getD e.src []) (edges_embed.getD e.rel []))
        nodes_embed.length (edges.map fun e => e.dst)).1
      (l.aggregate (edges.map fun e =>
        l.calculate_message (nodes_embed.getD e.src []) (edges_embed.getD e.rel []))
        nodes_embed.length (edges.map fun e => e.dst)).2).length
      = nodes_embed.length := by
    rw [indexAddRows_length, List.length_map]
  rw [getD_applyActive env k slopes _ d (by rw [hlen2]; exact hd)
      (by rw [hlen2]; exact hsl),
    indexAddRows_getD_of_not_mem _ _ _ d hdm,
    getD_map_of_lt _ nodes_embed d [] [] hd]

/-- An isolated node in `RGCNLayer.forward`: its output row is exactly its
self-loop transform `h[d] @ self_loop_weigt`. -/
lemma rgcn_forward_isolated (l : RGCNLayer) (h : Mat) (edges : List Edge) (d : ℕ)
    (hd : d < h.length) (hiso : ∀ e ∈ edges, e.dst ≠ d) :
    (RGCNLayer.forward l h edges).getD d []
      = vecMat (h.getD d []) l.self_loop_weigt := by
  simp only [RGCNLayer.forward]
  have hdm : d ∉ (RGCNLayer.aggregate
      (reorderByLastPos (edges.map fun e => e.dst)
        (edges.map fun e => vecMat (h.getD e.src []) (l.weight.getD e.rel [])))
      (edges.map fun e => e.dst)).1 := by
    intro hmem
    have hmem2 : d ∈ edges.map (fun e => e.dst) := mem_uniqueSorted.mp hmem
    rcases List.mem_map.mp hmem2 with ⟨e, he, hde⟩
    exact hiso e he hde
  rw [indexAddRows_getD_of_not_mem _ _ _ d hdm,
    getD_map_of_lt _ h d [] [] hd]

/-- An isolated node in `CompGCNLayer.forward`: the call succeeds on a
recognized mode, and the node's output row is exactly the self-loop term
`W_i(composition(node_embed[d], rela_embed[2*num_rela]))`. -/
lemma compgcn_forward_isolated (l : CompGCNLayer) (node_embed rela_embed : Mat)
    (edges : List Edge) (mode : String) (d : ℕ)
    (hmode : recognizedMode mode = true) (hd : d < node_embed.length)
    (hiso : ∀ e ∈ edges, e.dst ≠ d) :
    ∃ hv hr, CompGCNLayer.forward l node_embed rela_embed edges mode = some (hv, hr)
      ∧ CompGCNLayer.composition (node_embed.getD d [])
            (rela_embed.getD (l.num_rela * 2) []) mode
          = some (compVal (node_embed.getD d [])
              (rela_embed.getD (l.num_rela * 2) []) mode)
      ∧ hv.getD d [] = matVec l.W_i
          (compVal (node_embed.getD d [])
            (rela_embed.getD (l.num_rela * 2) []) mode) := by
  have hc0 : optionMapList (fun row =>
      CompGCNLayer.composition row (rela_embed.getD (l.num_rela * 2) []) mode)
      node_embed
      = some (node_embed.map (fun row =>
          compVal row (rela_embed.getD (l.num_rela * 2) []) mode)) :=
    optionMapList_eq_some _ _ (fun row => composition_recognized hmode _ _) _
  have hmo : CompGCNLayer.edgeMessages l.W_o node_embed rela_embed mode
      (forwardEdges edges l.num_rela)
      = some ((forwardEdges edges l.num_rela).map (fun e => matVec l.W_o
          (compVal (node_embed.getD e.src []) (rela_embed.getD e.rel []) mode))) := by
    apply optionMapList_eq_some
    intro e
    rw [composition_recognized hmode]
    rfl
  have hms : CompGCNLayer.edgeMessages l.W_s node_embed rela_embed mode
      (reverseEdges edges l.num_rela)
      = some ((reverseEdges edges l.num_rela).map (fun e => matVec l.W_s
          (compVal (node_embed.getD e.src []) (rela_embed.getD e.rel []) mode))) := by
    apply optionMapList_eq_some
    intro e
    rw [composition_recognized hmode]
    rfl
  simp only [CompGCNLayer.forward, hc0, hmo, hms]
  refine ⟨_, _, rfl, composition_recognized hmode _ _, ?_⟩
  have hdmo : d ∉ (CompGCNLayer.aggregate
      (reorderByLastPos ((forwardEdges edges l.num_rela).map fun e => e.dst)
        ((forwardEdges edges l.num_rela).map (fun e => matVec l.W_o
          (compVal (node_embed.getD e.src []) (rela_embed.getD e.rel []) mode))))
      ((forwardEdges edges l.num_rela).map fun e => e.dst)).1 := by
    intro hmem
    have hmem2 : d ∈ (forwardEdges edges l.num_rela).map (fun e => e.dst) :=
      mem_uniqueSorted.mp hmem
    rcases List.mem_map.mp hmem2 with ⟨e, he, hde⟩
    exact hiso e (List.mem_filter.mp he).1 hde
  have hdms : d ∉ (CompGCNLayer.aggregate
      (reorderByLastPos ((reverseEdges edges l.num_rela).map fun e => e.dst)
        ((reverseEdges edges l.num_rela).map (fun e => matVec l.W_s
          (compVal (node_embed.getD e.src []) (rela_embed.getD e.rel []) mode))))
      ((reverseEdges edges l.num_rela).map fun e => e.dst)).1 := by
    intro hmem
    have hmem2 : d ∈ (reverseEdges edges l.num_rela).map (fun e => e.dst) :=
      mem_uniqueSorted.mp hmem
    rcases List.mem_map.mp hmem2 with ⟨e, he, hde⟩
    exact hiso e (List.mem_filter.mp he).1 hde
  rw [indexAddRows_getD_of_not_mem _ _ _ d hdms,
    indexAddRows_getD_of_not_mem _ _ _ d hdmo,
    getD_map_of_lt _ _ d [] [] (by rw [List.length_map]; exact hd),
    getD_map_of_lt _ node_embed d [] [] hd]

/-- C7 counterexample: the claim includes WGCN among the layers whose
isolated nodes receive their self-loop transform, but `WGCNLayer.forward`
never produces an output at all — it raises `TypeError` (the extra-argument
bug of line 98) on this concrete input, whose node 0 is isolated. -/
theorem C7_wgcn_no_output_for_isolated_node :
    ¬ ∃ out, WGCNLayer.forward (mkWGCNLayer 1 2 1 [1] ⟨[[1, 1]], none⟩ "relu")
        [[1, 0], [0, 1]] [⟨0, 0, 1⟩] = Except.ok out := by
  rintro ⟨out, h⟩
  rw [show WGCNLayer.forward (mkWGCNLayer 1 2 1 [1] ⟨[[1, 1]], none⟩ "relu")
      [[1, 0], [0, 1]] [⟨0, 0, 1⟩]
      = Except.error
          "TypeError: aggregate() takes 4 positional arguments but 5 were given"
    from rfl] at h
  exact Except.noConfusion h

/-- C7 amended: for REGCN, RGCN and CompGCN (WGCN's forward raises before
producing any output), a node `d` with no incoming edge in the batch receives
exactly its self-loop transform — the layer's activation applied to it where
the layer has one — and rows other than destination rows are untouched by the
message-sending step. -/
theorem C7_isolated_node_gets_selfloop_only
    (env : ActiveEnv) (l1 : REGCNLayer) (k : ActiveKind)
    (slopes nodes_embed edges_embed : Mat) (edges1 : List Edge) (d1 : ℕ)
    (hact : l1.active = some k) (hsl : slopes.length = nodes_embed.length)
    (hd1 : d1 < nodes_embed.length) (hiso1 : ∀ e ∈ edges1, e.dst ≠ d1)
    (l2 : RGCNLayer) (h : Mat) (edges2 : List Edge) (d2 : ℕ)
    (hd2 : d2 < h.length) (hiso2 : ∀ e ∈ edges2, e.dst ≠ d2)
    (l3 : CompGCNLayer) (node_embed rela_embed : Mat) (edges3 : List Edge)
    (mode : String) (d3 : ℕ) (hmode : recognizedMode mode = true)
    (hd3 : d3 < node_embed.length) (hiso3 : ∀ e ∈ edges3, e.dst ≠ d3) :
    (∃ out, REGCNLayer.forward env l1 slopes nodes_embed edges_embed edges1
        = Except.ok out
      ∧ out.getD d1 [] = applyActiveRow env k (slopes.getD d1 [])
          (l1.fc_self.apply (nodes_embed.getD d1 [])))
    ∧ (RGCNLayer.forward l2 h edges2).getD d2 []
        = vecMat (h.getD d2 []) l2.self_loop_weigt
    ∧ (∃ hv hr, CompGCNLayer.forward l3 node_embed rela_embed edges3 mode
          = some (hv, hr)
        ∧ CompGCNLayer.composition (node_embed.getD d3 [])
              (rela_embed.getD (l3.num_rela * 2) []) mode
            = some (compVal (node_embed.getD d3 [])
                (rela_embed.getD (l3.num_rela * 2) []) mode)
        ∧ hv.getD d3 [] = matVec l3.W_i
            (compVal (node_embed.getD d3 [])
              (rela_embed.getD (l3.num_rela * 2) []) mode)) :=
  ⟨regcn_forward_isolated env l1 k slopes nodes_embed edges_embed edges1 d1
      hact hsl hd1 hiso1,
    rgcn_forward_isolated l2 h edges2 d2 hd2 hiso2,
    compgcn_forward_isolated l3 node_embed rela_embed edges3 mode d3 hmode hd3 hiso3⟩

/-- C7 witness: the amended theorem at concrete layers and batches whose
node 0 has no incoming edge. -/
theorem C7_isolated_node_witness :
    ((mkREGCNLayer 1 1 ⟨[[1]], none⟩ ⟨[[1]], none⟩ "tanh").active
        = some ActiveKind.tanh)
    ∧ (∀ e ∈ ([⟨1, 0, 1⟩] : List Edge), e.dst ≠ 0)
    ∧ recognizedMode "add" = true
    ∧ ((∃ out, REGCNLayer.forward ⟨fun q => q, fun q => q⟩
          (mkREGCNLayer 1 1 ⟨[[1]], none⟩ ⟨[[1]], none⟩ "tanh")
          [[0], [0]] [[1], [2]] [[1]] [⟨1, 0, 1⟩]
          = Except.ok out
        ∧ out.getD 0 [] = applyActiveRow ⟨fun q => q, fun q => q⟩ ActiveKind.tanh
            (([[(0 : ℚ)], [0]] : Mat).getD 0 [])
            ((⟨[[1]], none⟩ : Linear).apply (([[(1 : ℚ)], [2]] : Mat).getD 0 [])))
      ∧ (RGCNLayer.forward ⟨1, 1, 1, [[[1]]], [[1]]⟩ [[1], [2]] [⟨0, 0, 1⟩]).getD 0 []
          = vecMat (([[(1 : ℚ)], [2]] : Mat).getD 0 []) [[1]]
      ∧ (∃ hv hr, CompGCNLayer.forward ⟨1, 1, [[1]], [[1]], [[1]], [[1]]⟩
            [[1], [2]] [[0], [0], [0]] [⟨0, 0, 1⟩] "add"
            = some (hv, hr)
          ∧ CompGCNLayer.composition (([[(1 : ℚ)], [2]] : Mat).getD 0 [])
                (([[(0 : ℚ)], [0], [0]] : Mat).getD (1 * 2) []) "add"
              = some (compVal (([[(1 : ℚ)], [2]] : Mat).getD 0 [])
                  (([[(0 : ℚ)], [0], [0]] : Mat).getD (1 * 2) []) "add")
          ∧ hv.getD 0 [] = matVec [[1]]
              (compVal (([[(1 : ℚ)], [2]] : Mat).getD 0 [])
                (([[(0 : ℚ)], [0], [0]] : Mat).getD (1 * 2) []) "add"))) :=
  ⟨rfl, by decide, rfl,
    C7_isolated_node_gets_selfloop_only
      ⟨fun q => q, fun q => q⟩
      (mkREGCNLayer 1 1 ⟨[[1]], none⟩ ⟨[[1]], none⟩ "tanh") ActiveKind.tanh
      [[0], [0]] [[1], [2]] [[1]] [⟨1, 0, 1⟩] 0 rfl rfl (by simp) (by decide)
      ⟨1, 1, 1, [[[1]]], [[1]]⟩ [[1], [2]] [⟨0, 0, 1⟩] 0 (by simp) (by decide)
      ⟨1, 1, [[1]], [[1]], [[1]], [[1]]⟩ [[1], [2]] [[0], [0], [0]] [⟨0, 0, 1⟩]
      "add" 0 rfl (by simp) (by decide)⟩

lemma Fp.isFinite_mul {a b : Fp} (ha : a.isFinite = true) (hb : b.isFinite = true) :
    (Fp.mul a b).isFinite = true := by
  cases a <;> cases b <;> simp_all [Fp.isFinite, Fp.mul]

lemma Fp.isFinite_add {a b : Fp} (ha : a.isFinite = true) (hb : b.isFinite = true) :
    (Fp.add a b).isFinite = true := by
  cases a <;> cases b <;> simp_all [Fp.isFinite, Fp.add]

/-- Every element of a pointwise combination satisfies `P` when `P` holds of
all combinations of elements. -/
lemma mem_zipWith_elim {α β γ : Type} (f : α → β → γ) (l1 : List α) (l2 : List β)
    (P : γ → Prop) (h : ∀ a ∈ l1, ∀ b ∈ l2, P (f a b)) :
    ∀ c ∈ List.zipWith f l1 l2, P c := by
  induction l1 generalizing l2 with
  | nil => intro c hc; cases hc
  | cons a as ih =>
    cases l2 with
    | nil => intro c hc; cases hc
    | cons b bs =>
      intro c hc
      rcases List.mem_cons.mp hc with rfl | hc
      · exact h a (List.mem_cons_self _ _) b (List.mem_cons_self _ _)
      · exact ih bs (fun a' ha' b' hb' =>
          h a' (List.mem_cons_of_mem _ ha') b' (List.mem_cons_of_mem _ hb')) c hc

lemma replaceInf_powNegHalf (pnh : ℕ → ℚ) (dg : ℕ) :
    replaceInf (powNegHalfFp pnh dg)
      = if dg = 0 then Fp.num 0 else Fp.num (pnh dg) := by
  by_cases h : dg = 0 <;> simp [powNegHalfFp, replaceInf, h]

lemma degInvSqrt_isFinite (pnh : ℕ → ℚ) (src : List ℕ) (n v : ℕ) :
    (GCNLayer.degInvSqrt pnh src n v).isFinite = true := by
  rw [GCNLayer.degInvSqrt, replaceInf_powNegHalf]
  by_cases h : degreeOf (src ++ List.range n) v = 0 <;> simp [h, Fp.isFinite]

lemma gcn_norm_isFinite (pnh : ℕ → ℚ) (src dst : List ℕ) (n : ℕ) :
    ∀ c ∈ GCNLayer.norm pnh src dst n, c.isFinite = true := by
  intro c hc
  simp only [GCNLayer.norm] at hc
  rcases List.mem_map.mp hc with ⟨p, hp, rfl⟩
  exact Fp.isFinite_mul (degInvSqrt_isFinite _ _ _ _) (degInvSqrt_isFinite _ _ _ _)

lemma gcn_messages_isFinite (pnh : ℕ → ℚ) (x : Mat) (src dst : List ℕ) (n : ℕ) :
    ∀ row ∈ GCNLayer.messages pnh x src dst n, ∀ q ∈ row, q.isFinite = true := by
  intro row hrow q hq
  simp only [GCNLayer.messages] at hrow
  rcases List.mem_map.mp hrow with ⟨p, hp, rfl⟩
  rcases List.mem_map.mp hq with ⟨r, hr, rfl⟩
  have hnorm : p.1 ∈ GCNLayer.norm pnh src dst n := (List.of_mem_zip hp).1
  exact Fp.isFinite_mul (gcn_norm_isFinite pnh src dst n _ hnorm) rfl

lemma vaddFp_isFinite {a b : List Fp} (ha : ∀ q ∈ a, q.isFinite = true)
    (hb : ∀ q ∈ b, q.isFinite = true) : ∀ q ∈ vaddFp a b, q.isFinite = true :=
  mem_zipWith_elim Fp.add a b _
    (fun p hp r hr => Fp.isFinite_add (ha p hp) (hb r hr))

lemma foldl_vaddFp_isFinite (ps : List (ℕ × List Fp)) (init : List Fp)
    (hinit : ∀ q ∈ init, q.isFinite = true)
    (hps : ∀ p ∈ ps, ∀ q ∈ p.2, q.isFinite = true) :
    ∀ q ∈ ps.foldl (fun a p => vaddFp a p.2) init, q.isFinite = true := by
  induction ps generalizing init with
  | nil => exact hinit
  | cons p ps ih =>
    rw [List.foldl_cons]
    exact ih _ (vaddFp_isFinite hinit (hps p (List.mem_cons_self _ _)))
      (fun r hr => hps r (List.mem_cons_of_mem _ hr))

lemma gcn_aggregated_isFinite (pnh : ℕ → ℚ) (x : Mat) (src dst : List ℕ)
    (n v d0 : ℕ) :
    ∀ q ∈ GCNLayer.aggregated pnh x src dst n v d0, q.isFinite = true := by
  simp only [GCNLayer.aggregated]
  apply foldl_vaddFp_isFinite
  · intro q hq
    rw [List.eq_of_mem_replicate hq]
    rfl
  · intro p hp
    have hzip := List.mem_filter.mp hp
    have hmsg : p.2 ∈ GCNLayer.messages pnh x src dst n :=
      (List.of_mem_zip hzip.1).2
    exact gcn_messages_isFinite pnh x src dst n p.2 hmsg

lemma foldl_fpadd_isFinite (l : List Fp) (init : Fp)
    (hinit : init.isFinite = true) (hl : ∀ q ∈ l, q.isFinite = true) :
    (l.foldl Fp.add init).isFinite = true := by
  induction l generalizing init with
  | nil => exact hinit
  | cons a as ih =>
    rw [List.foldl_cons]
    exact ih _ (Fp.isFinite_add hinit (hl a (List.mem_cons_self _ _)))
      (fun q hq => hl q (List.mem_cons_of_mem _ hq))

lemma dotFp_isFinite (w : Vec) (xs : List Fp)
    (hxs : ∀ q ∈ xs, q.isFinite = true) : (dotFp w xs).isFinite = true := by
  rw [dotFp]
  refine foldl_fpadd_isFinite _ _ rfl ?_
  exact mem_zipWith_elim _ w xs _
    (fun c _ q hq => Fp.isFinite_mul rfl (hxs q hq))

lemma gcn_output_isFinite (l : GCNLayer) (pnh : ℕ → ℚ) (x : Mat)
    (src dst : List ℕ) (n v d0 : ℕ) :
    ∀ q ∈ GCNLayer.output l pnh x src dst n v d0, q.isFinite = true := by
  simp only [GCNLayer.output]
  cases hb : l.lin.bias with
  | none =>
    intro q hq
    rcases List.mem_map.mp hq with ⟨row, hrow, rfl⟩
    exact dotFp_isFinite row _ (gcn_aggregated_isFinite pnh x src dst n v d0)
  | some b =>
    apply mem_zipWith_elim
    intro fp hfp c _
    rcases List.mem_map.mp hfp with ⟨row, hrow, rfl⟩
    exact Fp.isFinite_add
      (dotFp_isFinite row _ (gcn_aggregated_isFinite pnh x src dst n v d0)) rfl

/-- C8: in `GCNLayer.forward`, `deg_inv_sqrt` is `degree ** -0.5` with the
infinite value arising from degree 0 replaced by `0`; every per-edge
normalization coefficient `deg_inv_sqrt[src] * deg_inv_sqrt[dst]` is finite;
after self-loop augmentation every node in range has degree at least 1; and
no NaN or infinity reaches any entry of the layer's output, in particular
for a node of degree 0 in the original graph. -/
theorem C8_gcn_degree_zero_safe :
    (∀ (pnh : ℕ → ℚ) (dg : ℕ),
      replaceInf (powNegHalfFp pnh dg)
        = if dg = 0 then Fp.num 0 else Fp.num (pnh dg))
    ∧ (∀ (pnh : ℕ → ℚ) (src dst : List ℕ) (n : ℕ),
        ∀ c ∈ GCNLayer.norm pnh src dst n, c.isFinite = true)
    ∧ (∀ (src : List ℕ) (n v : ℕ), v < n →
        1 ≤ degreeOf (src ++ List.range n) v)
    ∧ (∀ (l : GCNLayer) (pnh : ℕ → ℚ) (x : Mat) (src dst : List ℕ) (n v d0 : ℕ),
        ∀ q ∈ GCNLayer.output l pnh x src dst n v d0, q.isFinite = true) := by
  refine ⟨replaceInf_powNegHalf, gcn_norm_isFinite, ?_, gcn_output_isFinite⟩
  intro src n v hv
  rw [degreeOf, List.count_append]
  have h1 : (List.range n).count v = 1 :=
    List.count_eq_one_of_mem (List.nodup_range n) (List.mem_range.mpr hv)
  omega

/-- C8 witness: the theorem at a concrete graph (2 nodes, one edge `0 → 1`;
node 0 has in-degree 0 and out-degree counted over sources). -/
theorem C8_gcn_degree_zero_witness :
    (replaceInf (powNegHalfFp (fun _ => 1) 0)
        = if (0 : ℕ) = 0 then Fp.num 0 else Fp.num 1)
    ∧ (∀ c ∈ GCNLayer.norm (fun _ => 1) [0] [1] 2, c.isFinite = true)
    ∧ ((0 : ℕ) < 2 ∧ 1 ≤ degreeOf ([0] ++ List.range 2) 0)
    ∧ (∀ q ∈ GCNLayer.output ⟨⟨[[1, 1]], some [1]⟩⟩ (fun _ => 1) [[1], [2]]
        [0] [1] 2 0 1, q.isFinite = true) :=
  ⟨C8_gcn_degree_zero_safe.1 (fun _ => 1) 0,
    C8_gcn_degree_zero_safe.2.1 (fun _ => 1) [0] [1] 2,
    ⟨by decide, C8_gcn_degree_zero_safe.2.2.1 [0] 2 0 (by decide)⟩,
    C8_gcn_degree_zero_safe.2.2.2 ⟨⟨[[1, 1]], some [1]⟩⟩ (fun _ => 1) [[1], [2]]
      [0] [1] 2 0 1⟩
